import Mathlib

/-
Verification of the two components of this repository:

* src/list_ops.py — order-preserving duplicate removal over Python values
  (remove_duplicates and remove_duplicates_simple);
* src/user_manager.py — a list-backed user record store (UserManager).

The Python code is shallowly embedded: Python values that can appear as
list elements are modelled by the inductive type PyVal, Python equality
(==, also used by membership tests on the seen set) by PyVal.beq, Python
hashability by isHashable, and raised exceptions by the Except monad.
The UserManager state is its users_list, modelled as a List User; every
method becomes a function from the state (plus arguments) to the new
state and its return value.  File persistence (save_users) always
mirrors the in-memory list and is not observable through the fields the
claims speak about, so it is not modelled, except for export_users_to_csv
where the claim is about file creation and the embedding records whether
the file would have been opened for writing.

Modelling notes:
* PyVal covers int, str, tuple, list and dict values, the types the
  source distinguishes.  Python bool elements are not modelled in PyVal
  (in Python, True == 1 would conflate them with ints); no claim needs
  bool list elements.  Bool ages in the user manager are modelled
  separately by AgeVal, where the bool/int subtyping matters.
* pyLt totalizes the Python < used by sorted on dict items: comparisons
  between values of different types, which raise TypeError in Python,
  are ordered by a type rank here.  The only place this is reachable is
  a dict element with at least two keys of incomparable types; the one
  theorem quantifying over dict-free inputs states this boundary
  explicitly.
-/

/-- Python values that can appear as elements of the deduplicated list:
integers, strings, tuples, lists, and dicts (a dict is its list of
key-value pairs in insertion order). -/
inductive PyVal where
  | int : Int → PyVal
  | str : String → PyVal
  | tuple : List PyVal → PyVal
  | list : List PyVal → PyVal
  | dict : List (PyVal × PyVal) → PyVal

mutual

/-- Python equality (==) on PyVal: by value, structurally through tuples,
lists and dict item lists. -/
def PyVal.beq : PyVal → PyVal → Bool
  | .int a, .int b => a == b
  | .str a, .str b => a == b
  | .tuple as, .tuple bs => PyVal.beqL as bs
  | .list as, .list bs => PyVal.beqL as bs
  | .dict as, .dict bs => PyVal.beqP as bs
  | _, _ => false

/-- Elementwise Python equality of value sequences. -/
def PyVal.beqL : List PyVal → List PyVal → Bool
  | [], [] => true
  | a :: as, b :: bs => PyVal.beq a b && PyVal.beqL as bs
  | _, _ => false

/-- Elementwise Python equality of key-value pair sequences. -/
def PyVal.beqP : List (PyVal × PyVal) → List (PyVal × PyVal) → Bool
  | [], [] => true
  | (k1, v1) :: as, (k2, v2) :: bs =>
      PyVal.beq k1 k2 && PyVal.beq v1 v2 && PyVal.beqP as bs
  | _, _ => false

end

mutual

/-- Whether hash(v) succeeds in Python: ints and strings are hashable,
tuples are hashable when all their elements are, lists and dicts are
unhashable. -/
def isHashable : PyVal → Bool
  | .int _ => true
  | .str _ => true
  | .tuple xs => isHashableL xs
  | .list _ => false
  | .dict _ => false

/-- All elements of the sequence are hashable. -/
def isHashableL : List PyVal → Bool
  | [] => true
  | a :: as => isHashable a && isHashableL as

end

mutual

/-- The Python < comparison on values, as used by sorted on dict items.
Same-type comparisons follow Python (ints by value, strings
lexicographically, tuples and lists lexicographically elementwise).
Cross-type comparisons, which raise TypeError in Python, are totalized
by comparing a type rank; see the modelling notes. -/
def pyLt : PyVal → PyVal → Bool
  | .int a, .int b => a < b
  | .str a, .str b => a < b
  | .tuple as, .tuple bs => pyLtL as bs
  | .list as, .list bs => pyLtL as bs
  | a, b => pyRank a < pyRank b

/-- Lexicographic comparison of value sequences. -/
def pyLtL : List PyVal → List PyVal → Bool
  | [], [] => false
  | [], _ :: _ => true
  | _ :: _, [] => false
  | a :: as, b :: bs => pyLt a b || (PyVal.beq a b && pyLtL as bs)

/-- Rank used to totalize cross-type comparisons. -/
def pyRank : PyVal → Nat
  | .int _ => 0
  | .str _ => 1
  | .tuple _ => 2
  | .list _ => 3
  | .dict _ => 4

end

/-- Python tuple comparison on (key, value) pairs: key first, then value. -/
def pairLt (x y : PyVal × PyVal) : Bool :=
  pyLt x.1 y.1 || (PyVal.beq x.1 y.1 && pyLt x.2 y.2)

/-- Insert into an ascending list, for the insertion sort below. -/
def insertSorted (a : PyVal × PyVal) : List (PyVal × PyVal) → List (PyVal × PyVal)
  | [] => [a]
  | b :: bs => if pairLt a b then a :: b :: bs else b :: insertSorted a bs

/-- The Python builtin sorted on dict items (ascending insertion sort). -/
def pySorted (l : List (PyVal × PyVal)) : List (PyVal × PyVal) :=
  l.foldr insertSorted []

/-- The canonical hashable key computed in the loop body of
remove_duplicates (src/list_ops.py lines 42-49): a list becomes the tuple
of its elements, a dict becomes the tuple of its sorted key-value pairs
(each pair itself a 2-tuple), every other value is its own key. -/
def item_key : PyVal → PyVal
  | .list xs => .tuple xs
  | .dict kvs => .tuple ((pySorted kvs).map (fun kv => .tuple [kv.1, kv.2]))
  | v => v

/-- The exceptions remove_duplicates can raise. -/
inductive PyErr where
  | valueError : PyErr
  | typeError : PyErr
deriving DecidableEq

/-- Python membership (k in seen) for the seen set, testing == against
each stored key. -/
def pyIn (k : PyVal) (seen : List PyVal) : Bool :=
  seen.any (fun s => PyVal.beq k s)

/-- The main loop of remove_duplicates (src/list_ops.py lines 39-55):
for each item compute item_key; testing membership in the seen set
hashes the key, so an unhashable key raises TypeError; keys already seen
are skipped; otherwise the key is added to seen and the ORIGINAL item is
appended to the output. -/
def removeDupGo (seen : List PyVal) : List PyVal → Except PyErr (List PyVal)
  | [] => .ok []
  | item :: rest =>
    let k := item_key item
    if !(isHashable k) then .error .typeError
    else if pyIn k seen then removeDupGo seen rest
    else (removeDupGo (k :: seen) rest).map (fun out => item :: out)

/-- remove_duplicates (src/list_ops.py lines 11-55) applied to a genuine
Python list: the empty-list early return, then the dedup loop.  The
None/type validation of lines 29-32 is embedded by
remove_duplicates_arg below. -/
def remove_duplicates (my_list : List PyVal) : Except PyErr (List PyVal) :=
  if my_list.isEmpty then .ok [] else removeDupGo [] my_list

/-- The main loop of remove_duplicates_simple (src/list_ops.py lines
71-79): identical to removeDupGo but the item itself is the key. -/
def removeDupSimpleGo (seen : List PyVal) : List PyVal → Except PyErr (List PyVal)
  | [] => .ok []
  | item :: rest =>
    if !(isHashable item) then .error .typeError
    else if pyIn item seen then removeDupSimpleGo seen rest
    else (removeDupSimpleGo (item :: seen) rest).map (fun out => item :: out)

/-- remove_duplicates_simple (src/list_ops.py lines 58-79) applied to a
genuine Python list. -/
def remove_duplicates_simple (my_list : List PyVal) : Except PyErr (List PyVal) :=
  if my_list.isEmpty then .ok [] else removeDupSimpleGo [] my_list

/-- A Python argument as passed to remove_duplicates: None or a value. -/
inductive PyObj where
  | none : PyObj
  | val : PyVal → PyObj

/-- isinstance(v, list). -/
def isListVal : PyVal → Bool
  | .list _ => true
  | _ => false

/-- isinstance(v, dict). -/
def isDictVal : PyVal → Bool
  | .dict _ => true
  | _ => false

/-- Whether the argument is one of the standard Python sequence types
(list, tuple, str), the notion the spec sentence about invalid input
uses. -/
def isSequenceObj : PyObj → Bool
  | .val (.list _) => true
  | .val (.tuple _) => true
  | .val (.str _) => true
  | _ => false

/-- remove_duplicates including its argument validation (src/list_ops.py
lines 29-32): None raises ValueError, any non-list raises TypeError,
then the function body runs on the list. -/
def remove_duplicates_arg : PyObj → Except PyErr (List PyVal)
  | .none => .error .valueError
  | .val (.list xs) => remove_duplicates xs
  | .val _ => .error .typeError

/-- Specification function, written from the contract rather than from
the code: keep the first occurrence of each canonical key and drop every
later element whose key equals it.  Claims C2 and C4 compare the
implementation against it. -/
def dedupSpec : List PyVal → List PyVal
  | [] => []
  | a :: as =>
      a :: dedupSpec (as.filter (fun b => !(PyVal.beq (item_key b) (item_key a))))
termination_by l => l.length
decreasing_by
  simp only [List.length_cons]
  exact Nat.lt_succ_of_le (List.length_filter_le _ _)

/-- The age argument of add_user: a Python int, a Python bool (which is
an int subclass, so it passes isinstance(age, int)), or a value of any
other type. -/
inductive AgeVal where
  | int : Int → AgeVal
  | bool : Bool → AgeVal
  | nonInt : AgeVal
deriving DecidableEq

/-- isinstance(age, int); true for bools because bool subclasses int. -/
def isinstance_int : AgeVal → Bool
  | .int _ => true
  | .bool _ => true
  | .nonInt => false

/-- The integer value used by the comparison age < 0 (False is 0 and
True is 1); the value for nonInt is irrelevant because the isinstance
check short-circuits first. -/
def ageToInt : AgeVal → Int
  | .int n => n
  | .bool b => if b then 1 else 0
  | .nonInt => 0

/-- One record of users_list (src/user_manager.py lines 100-107). -/
structure User where
  id : Int
  name : String
  email : String
  age : AgeVal
  created_date : String
  is_active : Bool
deriving DecidableEq

/-- UserManager.add_user (src/user_manager.py lines 74-111).  Empty name
or email, a non-int or negative age, or an existing identical email all
return False and leave the list alone; otherwise a record with
id = len(users_list) + 1 and is_active = True is appended (created_date
is passed in as the current timestamp).  Returns the new list and the
boolean result. -/
def add_user (users : List User) (now : String) (user_name user_email : String)
    (user_age : AgeVal) : List User × Bool :=
  if user_name = "" ∨ user_email = "" then (users, false)
  else if ¬(isinstance_int user_age = true) ∨ ageToInt user_age < 0 then (users, false)
  else if ∃ u ∈ users, u.email = user_email then (users, false)
  else
    (users ++ [{ id := (users.length : Int) + 1, name := user_name, email := user_email,
                 age := user_age, created_date := now, is_active := true }], true)

/-- UserManager.get_user_by_id (src/user_manager.py lines 113-126):
linear scan for the first record with the given id. -/
def get_user_by_id (users : List User) (user_id : Int) : Option User :=
  users.find? (fun u => u.id == user_id)

/-- The in-place mutation performed by update_user_status through the
reference returned by get_user_by_id: the first record with the given id
gets the new is_active value. -/
def updateFirst (user_id : Int) (new_status : Bool) : List User → List User
  | [] => []
  | u :: rest =>
    if u.id = user_id then { u with is_active := new_status } :: rest
    else u :: updateFirst user_id new_status rest

/-- UserManager.update_user_status (src/user_manager.py lines 148-164). -/
def update_user_status (users : List User) (user_id : Int) (new_status : Bool) :
    List User × Bool :=
  match get_user_by_id users user_id with
  | some _ => (updateFirst user_id new_status users, true)
  | none => (users, false)

/-- UserManager.delete_user (src/user_manager.py lines 166-181): removes
the first record with the given id and returns True, or returns False
when no record matches. -/
def delete_user : List User → Int → List User × Bool
  | [], _ => ([], false)
  | u :: rest, user_id =>
    if u.id = user_id then (rest, true)
    else
      let r := delete_user rest user_id
      (u :: r.1, r.2)

/-- UserManager.get_active_users_count (src/user_manager.py lines 183-190). -/
def get_active_users_count (users : List User) : Nat :=
  users.countP (fun u => u.is_active)

/-- UserManager.get_users_by_age_range (src/user_manager.py lines
128-146); ages are compared through ageToInt. -/
def get_users_by_age_range (users : List User) (min_age max_age : Int) : List User :=
  if min_age > max_age then []
  else users.filter (fun u => min_age ≤ ageToInt u.age ∧ ageToInt u.age ≤ max_age)

/-- Python str.lower(), characterwise (ASCII case mapping). -/
def pyLower (s : String) : String := ⟨s.data.map Char.toLower⟩

/-- Python substring membership needle in hay: some suffix of hay starts
with needle. -/
def strContains (hay needle : String) : Bool :=
  (List.range (hay.data.length + 1)).any
    (fun i => List.isPrefixOf needle.data (hay.data.drop i))

/-- The accumulation loop of search_users_by_name (src/user_manager.py
lines 205-211). -/
def searchLoop (search_lower : String) : List User → List User
  | [] => []
  | u :: rest =>
    if strContains (pyLower u.name) search_lower then u :: searchLoop search_lower rest
    else searchLoop search_lower rest

/-- UserManager.search_users_by_name (src/user_manager.py lines 192-211):
falsy (empty) search term returns []; otherwise the lowered term is
matched as a substring of each lowered name. -/
def search_users_by_name (users : List User) (search_term : String) : List User :=
  if search_term = "" then []
  else searchLoop (pyLower search_term) users

/-- Observable outcome of export_users_to_csv: the returned boolean,
whether the target file was opened for writing, and the store state
afterwards. -/
structure ExportResult where
  success : Bool
  fileWritten : Bool
  users_after : List User
deriving DecidableEq

/-- UserManager.export_users_to_csv (src/user_manager.py lines 213-237):
an empty store returns False before the file is ever opened; otherwise
the file is opened and written (True), unless the path is not writable,
in which case open raises, the handler returns False and no file is
produced.  Writability is a parameter of the environment. -/
def export_users_to_csv (writable : Bool) (users : List User) : ExportResult :=
  if users.isEmpty then ⟨false, false, users⟩
  else if writable then ⟨true, true, users⟩
  else ⟨false, false, users⟩

/-- UserManager.get_user_count (src/user_manager.py lines 248-255). -/
def get_user_count (users : List User) : Nat := users.length

/-- UserManager.clear_all_users (src/user_manager.py lines 257-264). -/
def clear_all_users (_users : List User) : List User := []

/-- One mutating operation on the store, for reachability statements. -/
inductive StoreOp where
  | add (now name email : String) (age : AgeVal)
  | updateStatus (user_id : Int) (new_status : Bool)
  | delete (user_id : Int)
  | clear

/-- Apply one operation to the store state. -/
def applyOp (users : List User) : StoreOp → List User
  | .add now name email age => (add_user users now name email age).1
  | .updateStatus uid st => (update_user_status users uid st).1
  | .delete uid => (delete_user users uid).1
  | .clear => clear_all_users users

/-- The store state reached from the empty store by a sequence of
operations. -/
def runOps (ops : List StoreOp) : List User := ops.foldl applyOp []

/-- Whether an operation is a delete. -/
def isDeleteOp : StoreOp → Bool
  | .delete _ => true
  | _ => false

/-- The id values 1, 2, ..., n. -/
def seqIds (n : Nat) : List Int := (List.range n).map (fun i : Nat => (i : Int) + 1)

mutual

theorem PyVal.beq_refl : ∀ a : PyVal, PyVal.beq a a = true
  | .int a => by simp [PyVal.beq]
  | .str a => by simp [PyVal.beq]
  | .tuple as => by simpa [PyVal.beq] using PyVal.beqL_refl as
  | .list as => by simpa [PyVal.beq] using PyVal.beqL_refl as
  | .dict as => by simpa [PyVal.beq] using PyVal.beqP_refl as

theorem PyVal.beqL_refl : ∀ as : List PyVal, PyVal.beqL as as = true
  | [] => rfl
  | a :: as => by
      simp only [PyVal.beqL, Bool.and_eq_true]
      exact ⟨PyVal.beq_refl a, PyVal.beqL_refl as⟩

theorem PyVal.beqP_refl : ∀ as : List (PyVal × PyVal), PyVal.beqP as as = true
  | [] => rfl
  | (k, v) :: as => by
      simp only [PyVal.beqP, Bool.and_eq_true]
      exact ⟨⟨PyVal.beq_refl k, PyVal.beq_refl v⟩, PyVal.beqP_refl as⟩

end

theorem dedupSpec_sublist (l : List PyVal) : List.Sublist (dedupSpec l) l := by
  induction l using dedupSpec.induct with
  | case1 => simp [dedupSpec]
  | case2 a as ih =>
    rw [dedupSpec]
    exact List.Sublist.cons₂ a (ih.trans (List.filter_sublist as))

theorem dedupSpec_pairwise (l : List PyVal) :
    (dedupSpec l).Pairwise (fun x y => PyVal.beq (item_key y) (item_key x) = false) := by
  induction l using dedupSpec.induct with
  | case1 => simp [dedupSpec]
  | case2 a as ih =>
    rw [dedupSpec]
    refine List.Pairwise.cons ?_ ih
    intro y hy
    have hmem := (dedupSpec_sublist _).subset hy
    have := List.of_mem_filter hmem
    simpa using this

theorem removeDupGo_ok_hashable {seen : List PyVal} {xs out : List PyVal}
    (h : removeDupGo seen xs = .ok out) :
    ∀ a ∈ xs, isHashable (item_key a) = true := by
  induction xs generalizing seen out with
  | nil => simp
  | cons a as ih =>
    intro b hb
    rw [removeDupGo] at h
    by_cases h1 : isHashable (item_key a) = true
    · simp only [h1, Bool.not_true, Bool.false_eq_true, if_false] at h
      rcases List.mem_cons.1 hb with rfl | hb2
      · exact h1
      · by_cases h2 : pyIn (item_key a) seen = true
        · simp only [h2, if_true] at h
          exact ih h b hb2
        · simp only [Bool.not_eq_true] at h2
          simp only [h2, Bool.false_eq_true, if_false] at h
          cases hgo : removeDupGo (item_key a :: seen) as with
          | error e => rw [hgo] at h; simp [Except.map] at h
          | ok out2 => exact ih hgo b hb2
    · simp only [Bool.not_eq_true] at h1
      simp [h1] at h

theorem removeDupGo_ok_spec {seen : List PyVal} {xs out : List PyVal}
    (h : removeDupGo seen xs = .ok out) :
    out = dedupSpec (xs.filter (fun a => !(pyIn (item_key a) seen))) := by
  induction xs generalizing seen out with
  | nil =>
    rw [removeDupGo] at h
    cases h
    simp [dedupSpec]
  | cons a as ih =>
    rw [removeDupGo] at h
    by_cases h1 : isHashable (item_key a) = true
    · simp only [h1, Bool.not_true, Bool.false_eq_true, if_false] at h
      by_cases h2 : pyIn (item_key a) seen = true
      · simp only [h2, if_true] at h
        rw [List.filter_cons_of_neg (by simp [h2])]
        exact ih h
      · simp only [Bool.not_eq_true] at h2
        simp only [h2, Bool.false_eq_true, if_false] at h
        cases hgo : removeDupGo (item_key a :: seen) as with
        | error e => rw [hgo] at h; simp [Except.map] at h
        | ok out2 =>
          rw [hgo] at h
          simp only [Except.map] at h
          cases h
          rw [List.filter_cons_of_pos (by simp [h2])]
          rw [dedupSpec]
          have heq : (as.filter (fun b => !(pyIn (item_key b) (item_key a :: seen)))) =
              ((as.filter (fun b => !(pyIn (item_key b) seen))).filter
                (fun b => !(PyVal.beq (item_key b) (item_key a)))) := by
            rw [List.filter_filter]
            apply List.filter_congr
            intro b _
            simp [pyIn, List.any_cons, Bool.not_or, Bool.and_comm]
          rw [ih hgo, heq]
    · simp only [Bool.not_eq_true] at h1
      simp [h1] at h

theorem removeDupGo_nodup_ok {l : List PyVal} (seen : List PyVal)
    (hhash : ∀ a ∈ l, isHashable (item_key a) = true)
    (hpw : l.Pairwise (fun x y => PyVal.beq (item_key y) (item_key x) = false))
    (hseen : ∀ a ∈ l, pyIn (item_key a) seen = false) :
    removeDupGo seen l = .ok l := by
  induction l generalizing seen with
  | nil => rfl
  | cons a as ih =>
    rw [removeDupGo]
    have h1 : isHashable (item_key a) = true := hhash a (by simp)
    have h2 : pyIn (item_key a) seen = false := hseen a (by simp)
    simp only [h1, Bool.not_true, Bool.false_eq_true, if_false, h2]
    have hrec : removeDupGo (item_key a :: seen) as = .ok as := by
      apply ih
      · intro b hb; exact hhash b (List.mem_cons_of_mem _ hb)
      · exact hpw.of_cons
      · intro b hb
        have hba : PyVal.beq (item_key b) (item_key a) = false :=
          (List.pairwise_cons.1 hpw).1 b hb
        have hbs : pyIn (item_key b) seen = false := hseen b (List.mem_cons_of_mem _ hb)
        simp [pyIn, List.any_cons] at hbs ⊢
        exact ⟨hba, hbs⟩
    rw [hrec]
    rfl

theorem remove_duplicates_ok_spec {S out : List PyVal}
    (h : remove_duplicates S = .ok out) : out = dedupSpec S := by
  rw [remove_duplicates] at h
  by_cases hS : S.isEmpty
  · simp only [hS, if_true] at h
    cases h
    rw [List.isEmpty_iff.1 hS]
    simp [dedupSpec]
  · simp only [hS, Bool.false_eq_true, if_false] at h
    have := removeDupGo_ok_spec h
    simpa [pyIn] using this

theorem remove_duplicates_idem (S : List PyVal) :
    (remove_duplicates S).bind remove_duplicates = remove_duplicates S := by
  cases h : remove_duplicates S with
  | error e => rfl
  | ok out =>
    simp only [Except.bind]
    have hspec := remove_duplicates_ok_spec h
    by_cases hS : S.isEmpty
    · rw [remove_duplicates] at h
      simp only [hS, if_true] at h
      cases h
      rfl
    · rw [remove_duplicates] at h
      simp only [hS, Bool.false_eq_true, if_false] at h
      have hhashS := removeDupGo_ok_hashable h
      have hsub : List.Sublist out S := hspec ▸ dedupSpec_sublist S
      have hhash : ∀ a ∈ out, isHashable (item_key a) = true := by
        intro a ha; exact hhashS a (hsub.subset ha)
      have hpw : out.Pairwise (fun x y => PyVal.beq (item_key y) (item_key x) = false) :=
        hspec ▸ dedupSpec_pairwise S
      rw [remove_duplicates]
      by_cases hout : out.isEmpty
      · rw [List.isEmpty_iff.1 hout]; simp
      · simp only [hout, Bool.false_eq_true, if_false]
        exact removeDupGo_nodup_ok [] hhash hpw (by intro a _; rfl)

theorem item_key_eq_self {a : PyVal} (hl : isListVal a = false) (hd : isDictVal a = false) :
    item_key a = a := by
  cases a with
  | int n => rfl
  | str s => rfl
  | tuple xs => rfl
  | list xs => simp [isListVal] at hl
  | dict kvs => simp [isDictVal] at hd

theorem removeDupSimpleGo_eq_go {xs : List PyVal} (seen : List PyVal)
    (h : ∀ a ∈ xs, item_key a = a) :
    removeDupSimpleGo seen xs = removeDupGo seen xs := by
  induction xs generalizing seen with
  | nil => rfl
  | cons a as ih =>
    have ha : item_key a = a := h a (by simp)
    rw [removeDupSimpleGo, removeDupGo]
    simp only [ha]
    by_cases h1 : isHashable a = true
    · simp only [h1, Bool.not_true, Bool.false_eq_true, if_false]
      by_cases h2 : pyIn a seen = true
      · simp only [h2, if_true]
        exact ih seen (fun b hb => h b (List.mem_cons_of_mem _ hb))
      · simp only [Bool.not_eq_true] at h2
        simp only [h2, Bool.false_eq_true, if_false]
        rw [ih (a :: seen) (fun b hb => h b (List.mem_cons_of_mem _ hb))]
    · simp only [Bool.not_eq_true] at h1
      simp [h1]

theorem removeDupGo_ok_of_hashable {xs : List PyVal} (seen : List PyVal)
    (h : ∀ a ∈ xs, isHashable (item_key a) = true) :
    ∃ out, removeDupGo seen xs = .ok out := by
  induction xs generalizing seen with
  | nil => exact ⟨[], rfl⟩
  | cons a as ih =>
    have h1 : isHashable (item_key a) = true := h a (by simp)
    rw [removeDupGo]
    simp only [h1, Bool.not_true, Bool.false_eq_true, if_false]
    by_cases h2 : pyIn (item_key a) seen = true
    · simp only [h2, if_true]
      exact ih seen (fun b hb => h b (List.mem_cons_of_mem _ hb))
    · simp only [Bool.not_eq_true] at h2
      simp only [h2, Bool.false_eq_true, if_false]
      obtain ⟨out, hout⟩ := ih (item_key a :: seen) (fun b hb => h b (List.mem_cons_of_mem _ hb))
      exact ⟨a :: out, by rw [hout]; rfl⟩

theorem add_user_of_invalid {users : List User} {now name email : String} {age : AgeVal}
    (h : name = "" ∨ email = "" ∨ ¬(isinstance_int age = true) ∨ ageToInt age < 0 ∨
         ∃ u ∈ users, u.email = email) :
    add_user users now name email age = (users, false) := by
  rw [add_user]
  by_cases h1 : name = "" ∨ email = ""
  · rw [if_pos h1]
  · rw [if_neg h1]
    by_cases h2 : ¬(isinstance_int age = true) ∨ ageToInt age < 0
    · rw [if_pos h2]
    · rw [if_neg h2]
      by_cases h3 : ∃ u ∈ users, u.email = email
      · rw [if_pos h3]
      · exfalso
        rcases h with h | h | h | h | h
        · exact h1 (Or.inl h)
        · exact h1 (Or.inr h)
        · exact h2 (Or.inl h)
        · exact h2 (Or.inr h)
        · exact h3 h

theorem add_user_success {users : List User} {now name email : String} {age : AgeVal}
    (h1 : ¬(name = "")) (h2 : ¬(email = "")) (h3 : isinstance_int age = true)
    (h4 : 0 ≤ ageToInt age) (h5 : ∀ u ∈ users, u.email ≠ email) :
    add_user users now name email age =
      (users ++ [{ id := (users.length : Int) + 1, name := name, email := email,
                   age := age, created_date := now, is_active := true }], true) := by
  rw [add_user]
  rw [if_neg (by push_neg; exact ⟨h1, h2⟩)]
  rw [if_neg (by push_neg; exact ⟨h3, h4⟩)]
  rw [if_neg (by push_neg; exact h5)]

theorem updateFirst_map_id (uid : Int) (st : Bool) (users : List User) :
    (updateFirst uid st users).map User.id = users.map User.id := by
  induction users with
  | nil => rfl
  | cons u rest ih =>
    rw [updateFirst]
    by_cases h : u.id = uid
    · rw [if_pos h]; rfl
    · rw [if_neg h]
      simp only [List.map_cons, ih]

theorem updateFirst_length (uid : Int) (st : Bool) (users : List User) :
    (updateFirst uid st users).length = users.length := by
  induction users with
  | nil => rfl
  | cons u rest ih =>
    rw [updateFirst]
    by_cases h : u.id = uid
    · rw [if_pos h]; rfl
    · rw [if_neg h]
      simp only [List.length_cons, ih]

theorem seqIds_succ (n : Nat) : seqIds (n + 1) = seqIds n ++ [(n : Int) + 1] := by
  simp [seqIds, List.range_succ]

theorem seqIds_nodup (n : Nat) : (seqIds n).Nodup := by
  unfold seqIds
  refine (List.nodup_range n).map ?_
  intro a b hab
  have hab2 : (a : Int) + 1 = (b : Int) + 1 := hab
  omega

theorem applyOp_id_inv {users : List User} {op : StoreOp}
    (hop : isDeleteOp op = false)
    (hinv : users.map User.id = seqIds users.length) :
    (applyOp users op).map User.id = seqIds (applyOp users op).length := by
  cases op with
  | add now name email age =>
    rw [applyOp, add_user]
    by_cases h1 : name = "" ∨ email = ""
    · rw [if_pos h1]; exact hinv
    · rw [if_neg h1]
      by_cases h2 : ¬(isinstance_int age = true) ∨ ageToInt age < 0
      · rw [if_pos h2]; exact hinv
      · rw [if_neg h2]
        by_cases h3 : ∃ u ∈ users, u.email = email
        · rw [if_pos h3]; exact hinv
        · rw [if_neg h3]
          simp only [List.map_append, List.map_cons, List.map_nil, List.length_append,
            List.length_cons, List.length_nil]
          rw [hinv, seqIds_succ]
  | updateStatus uid st =>
    rw [applyOp, update_user_status]
    cases get_user_by_id users uid with
    | some u =>
      simp only [updateFirst_map_id, updateFirst_length]
      exact hinv
    | none => exact hinv
  | delete uid => simp [isDeleteOp] at hop
  | clear => rfl

theorem foldl_id_inv (ops : List StoreOp) :
    ∀ users : List User, (∀ op ∈ ops, isDeleteOp op = false) →
    users.map User.id = seqIds users.length →
    (ops.foldl applyOp users).map User.id = seqIds (ops.foldl applyOp users).length := by
  induction ops with
  | nil => intro users _ hinv; exact hinv
  | cons op rest ih =>
    intro users hops hinv
    rw [List.foldl_cons]
    exact ih _ (fun o ho => hops o (List.mem_cons_of_mem _ ho))
      (applyOp_id_inv (hops op (by simp)) hinv)

theorem searchLoop_eq_filter (sl : String) (users : List User) :
    searchLoop sl users = users.filter (fun u => strContains (pyLower u.name) sl) := by
  induction users with
  | nil => rfl
  | cons u rest ih =>
    rw [searchLoop, List.filter_cons]
    by_cases h : strContains (pyLower u.name) sl = true
    · simp only [h, if_true, ih]
    · simp only [Bool.not_eq_true] at h
      simp only [h, Bool.false_eq_true, if_false, ih]

theorem charPrefix_iff : ∀ l1 l2 : List Char,
    List.isPrefixOf l1 l2 = true ↔ ∃ t, l1 ++ t = l2
  | [], l2 => by simp [List.isPrefixOf]
  | a :: as, [] => by simp [List.isPrefixOf]
  | a :: as, b :: bs => by
    simp only [List.isPrefixOf, Bool.and_eq_true, beq_iff_eq]
    rw [charPrefix_iff as bs]
    constructor
    · rintro ⟨rfl, t, rfl⟩
      exact ⟨t, rfl⟩
    · rintro ⟨t, h⟩
      injection h with h1 h2
      exact ⟨h1, t, h2⟩

theorem strContains_iff (hay needle : String) :
    strContains hay needle = true ↔
      ∃ l1 l2 : List Char, hay.data = l1 ++ needle.data ++ l2 := by
  rw [strContains, List.any_eq_true]
  constructor
  · rintro ⟨i, _, hpre⟩
    obtain ⟨t, ht⟩ := (charPrefix_iff _ _).1 hpre
    refine ⟨hay.data.take i, t, ?_⟩
    conv_lhs => rw [← List.take_append_drop i hay.data]
    rw [List.append_assoc, ht]
  · rintro ⟨l1, l2, heq⟩
    refine ⟨l1.length, ?_, ?_⟩
    · rw [List.mem_range, heq]
      simp only [List.length_append]
      omega
    · rw [heq, List.append_assoc, List.drop_left]
      exact (charPrefix_iff _ _).2 ⟨l2, rfl⟩

/-- Claim C1: add_user returns failure and leaves the store (size and
contents) unchanged whenever the name is empty, the email is empty, the
age is not a non-negative integer, or the email already exists in the
store by case-sensitive exact match; otherwise it appends exactly one
new record with id = current count + 1 and is_active = true and returns
success. -/
theorem claim_C1_add_user_validation (users : List User) (now name email : String)
    (age : AgeVal) :
    ((name = "" ∨ email = "" ∨ ¬(isinstance_int age = true ∧ 0 ≤ ageToInt age) ∨
      ∃ u ∈ users, u.email = email) →
      add_user users now name email age = (users, false)) ∧
    (name ≠ "" → email ≠ "" → isinstance_int age = true → 0 ≤ ageToInt age →
      (∀ u ∈ users, u.email ≠ email) →
      add_user users now name email age =
        (users ++ [{ id := (users.length : Int) + 1, name := name, email := email,
                     age := age, created_date := now, is_active := true }], true)) := by
  constructor
  · intro h
    apply add_user_of_invalid
    rcases h with h | h | h | h
    · exact Or.inl h
    · exact Or.inr (Or.inl h)
    · rcases not_and_or.1 h with h2 | h2
      · exact Or.inr (Or.inr (Or.inl h2))
      · exact Or.inr (Or.inr (Or.inr (Or.inl (by omega))))
    · exact Or.inr (Or.inr (Or.inr (Or.inr h)))
  · intro h1 h2 h3 h4 h5
    exact add_user_success h1 h2 h3 h4 h5

/-- Witness for claim C1: a concrete rejected add (empty name, store
unchanged) and a concrete successful add (record appended with id 1 plus
a second user appended with id 2). -/
theorem claim_C1_witness :
    add_user [] "d" "" "e@x.com" (.int 1) = ([], false) ∧
    add_user [{ id := 1, name := "An", email := "an@x.com", age := .int 25,
                created_date := "d", is_active := true }]
        "d2" "Binh" "binh@x.com" (.int 30) =
      ([{ id := 1, name := "An", email := "an@x.com", age := .int 25,
          created_date := "d", is_active := true },
        { id := 2, name := "Binh", email := "binh@x.com", age := .int 30,
          created_date := "d2", is_active := true }], true) := by
  constructor
  · exact (claim_C1_add_user_validation [] "d" "" "e@x.com" (.int 1)).1 (Or.inl rfl)
  · have := (claim_C1_add_user_validation
        [{ id := 1, name := "An", email := "an@x.com", age := .int 25,
           created_date := "d", is_active := true }]
        "d2" "Binh" "binh@x.com" (.int 30)).2
        (by decide) (by decide) rfl (by decide) (by decide)
    simpa using this

/-- Claim C2: remove_duplicates is idempotent (running it on its own
output, errors propagating through bind, changes nothing), and a
successful output is exactly the elements of the input in the order of
their first occurrence: the first element of each canonical-key class is
kept (dedupSpec) and the output is a sublist of the input. -/
theorem claim_C2_dedup_idempotent (S : List PyVal) :
    (remove_duplicates S).bind remove_duplicates = remove_duplicates S ∧
    ∀ out, remove_duplicates S = .ok out → out = dedupSpec S ∧ List.Sublist out S := by
  refine ⟨remove_duplicates_idem S, ?_⟩
  intro out h
  have hs := remove_duplicates_ok_spec h
  exact ⟨hs, hs ▸ dedupSpec_sublist S⟩

/-- Witness for claim C2 at the concrete input [1, 2, 2]. -/
theorem claim_C2_witness :
    ((remove_duplicates [.int 1, .int 2, .int 2]).bind remove_duplicates =
      remove_duplicates [.int 1, .int 2, .int 2]) ∧
    ([.int 1, .int 2] = dedupSpec [.int 1, .int 2, .int 2] ∧
      List.Sublist [PyVal.int 1, PyVal.int 2] [.int 1, .int 2, .int 2]) :=
  ⟨(claim_C2_dedup_idempotent _).1, (claim_C2_dedup_idempotent _).2 [.int 1, .int 2] rfl⟩

/-- Counterexample for claim C3 as stated: from the empty store, add two
users, delete the record with id 1, then add a third user; the new
record gets id = len + 1 = 2, which collides with the surviving record,
so the reachable state has ids [2, 2] and id uniqueness fails. -/
theorem claim_C3_counterexample :
    ((runOps [.add "d1" "a" "a@x" (.int 1), .add "d2" "b" "b@x" (.int 2),
              .delete 1, .add "d3" "c" "c@x" (.int 3)]).map User.id = [2, 2]) ∧
    ¬ ((runOps [.add "d1" "a" "a@x" (.int 1), .add "d2" "b" "b@x" (.int 2),
              .delete 1, .add "d3" "c" "c@x" (.int 3)]).map User.id).Nodup := by
  constructor
  · decide
  · decide

/-- Claim C3 (amended): in every store state reachable from the empty
store by add, update_status and clear operations (no delete), the ids
are exactly 1..n and in particular no two records share an id; with
delete included the invariant can fail, as the counterexample shows. -/
theorem claim_C3_ids_nodup_without_delete (ops : List StoreOp)
    (h : ∀ op ∈ ops, isDeleteOp op = false) :
    ((runOps ops).map User.id).Nodup := by
  rw [runOps]
  rw [foldl_id_inv ops [] h rfl]
  exact seqIds_nodup _

/-- Witness for claim C3 (amended) on a concrete delete-free operation
sequence. -/
theorem claim_C3_witness :
    ((runOps [.add "d1" "a" "a@x" (.int 1), .clear, .add "d2" "b" "b@x" (.int 2),
              .updateStatus 1 false]).map User.id).Nodup :=
  claim_C3_ids_nodup_without_delete _ (by decide)

/-- Claim C4: remove_duplicates keys unhashable elements canonically
(lists as tuples, dicts as sorted item tuples, per item_key) but keeps
the original element in the output: dedup of [[1,2],[3,4],[1,2]] is
[[1,2],[3,4]] with the list values themselves retained; in general every
output element is an element of the input, and each distinct value (and
each distinct canonical key) appears at most once in the output. -/
theorem claim_C4_canonical_key_retains_original :
    remove_duplicates
        [.list [.int 1, .int 2], .list [.int 3, .int 4], .list [.int 1, .int 2]] =
      .ok [.list [.int 1, .int 2], .list [.int 3, .int 4]] ∧
    ∀ S out, remove_duplicates S = .ok out →
      (∀ a ∈ out, a ∈ S) ∧ out.Nodup ∧ (out.map item_key).Nodup := by
  refine ⟨rfl, ?_⟩
  intro S out h
  have hs := remove_duplicates_ok_spec h
  have hsub : List.Sublist out S := hs ▸ dedupSpec_sublist S
  have hpw : out.Pairwise (fun x y => PyVal.beq (item_key y) (item_key x) = false) :=
    hs ▸ dedupSpec_pairwise S
  refine ⟨fun a ha => hsub.subset ha, ?_, ?_⟩
  · refine hpw.imp ?_
    intro x y hxy heq
    subst heq
    simp [PyVal.beq_refl] at hxy
  · show List.Pairwise (fun x y => x ≠ y) (List.map item_key out)
    refine List.Pairwise.map item_key ?_ hpw
    intro x y hxy heq
    rw [heq, PyVal.beq_refl] at hxy
    cases hxy

/-- Witness for claim C4 at the concrete nested-list input. -/
theorem claim_C4_witness :
    (∀ a ∈ [PyVal.list [.int 1, .int 2], PyVal.list [.int 3, .int 4]],
        a ∈ [PyVal.list [.int 1, .int 2], .list [.int 3, .int 4], .list [.int 1, .int 2]]) ∧
    ([PyVal.list [.int 1, .int 2], PyVal.list [.int 3, .int 4]]).Nodup ∧
    (([PyVal.list [.int 1, .int 2], PyVal.list [.int 3, .int 4]]).map item_key).Nodup :=
  claim_C4_canonical_key_retains_original.2 _ _ rfl

/-- Counterexample for claim C5 as stated: the claim says the function
fails exactly on null or non-sequence input and never fails on a
sequence.  But the code rejects every non-list, so the tuple (1, 2) — a
sequence — raises TypeError; and even a genuine list can fail: for
[[[1]]] the canonical key ([1],) is unhashable and the membership test
raises TypeError. -/
theorem claim_C5_counterexample :
    isSequenceObj (.val (.tuple [.int 1, .int 2])) = true ∧
    remove_duplicates_arg (.val (.tuple [.int 1, .int 2])) = .error .typeError ∧
    isSequenceObj (.val (.list [.list [.list [.int 1]]])) = true ∧
    remove_duplicates_arg (.val (.list [.list [.list [.int 1]]])) = .error .typeError :=
  ⟨rfl, rfl, rfl, rfl⟩

/-- Claim C5 (amended): remove_duplicates raises ValueError exactly on
null input; it raises TypeError on every non-list value, including
tuple and str sequences; and for list inputs without dict elements (so
that key sorting is not involved) it succeeds exactly when every
element has a hashable canonical key. -/
theorem claim_C5_error_conditions :
    (remove_duplicates_arg .none = .error .valueError) ∧
    (∀ v : PyVal, isListVal v = false → remove_duplicates_arg (.val v) = .error .typeError) ∧
    (∀ xs : List PyVal, (∀ a ∈ xs, isDictVal a = false) →
      ((∃ out, remove_duplicates_arg (.val (.list xs)) = .ok out) ↔
        ∀ a ∈ xs, isHashable (item_key a) = true)) := by
  refine ⟨rfl, ?_, ?_⟩
  · intro v hv
    cases v with
    | list xs => simp [isListVal] at hv
    | int n => rfl
    | str s => rfl
    | tuple xs => rfl
    | dict kvs => rfl
  · intro xs _
    show (∃ out, remove_duplicates xs = .ok out) ↔ _
    constructor
    · rintro ⟨out, h⟩
      rw [remove_duplicates] at h
      by_cases hS : xs.isEmpty
      · intro a ha
        rw [List.isEmpty_iff.1 hS] at ha
        simp at ha
      · simp only [hS, Bool.false_eq_true, if_false] at h
        exact removeDupGo_ok_hashable h
    · intro hall
      rw [remove_duplicates]
      by_cases hS : xs.isEmpty
      · exact ⟨[], by simp [hS]⟩
      · simp only [hS, Bool.false_eq_true, if_false]
        exact removeDupGo_ok_of_hashable [] hall

/-- Witness for claim C5 (amended): a string input raises TypeError and
a plain int list succeeds. -/
theorem claim_C5_witness :
    remove_duplicates_arg (.val (.str "ab")) = .error .typeError ∧
    (∃ out, remove_duplicates_arg (.val (.list [.int 5, .int 5])) = .ok out) :=
  ⟨claim_C5_error_conditions.2.1 _ rfl,
   (claim_C5_error_conditions.2.2 [.int 5, .int 5] (by decide)).2 (by decide)⟩

/-- Claim C6: after adding three valid records (distinct emails) to the
empty store and deleting the second by its id, the store holds the first
and third records unchanged (ids 1 and 3, not renumbered) and count()
returns 2. -/
theorem claim_C6_delete_preserves_ids
    (d1 d2 d3 n1 n2 n3 e1 e2 e3 : String) (a1 a2 a3 : AgeVal)
    (hn1 : n1 ≠ "") (hn2 : n2 ≠ "") (hn3 : n3 ≠ "")
    (he1 : e1 ≠ "") (he2 : e2 ≠ "") (he3 : e3 ≠ "")
    (ha1 : isinstance_int a1 = true) (ha1b : 0 ≤ ageToInt a1)
    (ha2 : isinstance_int a2 = true) (ha2b : 0 ≤ ageToInt a2)
    (ha3 : isinstance_int a3 = true) (ha3b : 0 ≤ ageToInt a3)
    (h12 : e1 ≠ e2) (h13 : e1 ≠ e3) (h23 : e2 ≠ e3) :
    delete_user
        (add_user (add_user (add_user [] d1 n1 e1 a1).1 d2 n2 e2 a2).1 d3 n3 e3 a3).1 2 =
      ([{ id := 1, name := n1, email := e1, age := a1, created_date := d1,
          is_active := true },
        { id := 3, name := n3, email := e3, age := a3, created_date := d3,
          is_active := true }], true) ∧
    get_user_count
      (delete_user
        (add_user (add_user (add_user [] d1 n1 e1 a1).1 d2 n2 e2 a2).1 d3 n3 e3 a3).1 2).1 = 2 ∧
    (delete_user
        (add_user (add_user (add_user [] d1 n1 e1 a1).1 d2 n2 e2 a2).1 d3 n3 e3 a3).1 2).1.map
      User.id = [1, 3] := by
  have ha1c : ¬(ageToInt a1 < 0) := by omega
  have ha2c : ¬(ageToInt a2 < 0) := by omega
  have ha3c : ¬(ageToInt a3 < 0) := by omega
  simp [add_user, delete_user, get_user_count, hn1, hn2, hn3, he1, he2, he3,
    ha1, ha2, ha3, ha1c, ha2c, ha3c, h12, h13, h23]

/-- Witness for claim C6 on three concrete users. -/
theorem claim_C6_witness :
    delete_user
        (add_user (add_user (add_user [] "t1" "An" "an@x" (.int 25)).1
          "t2" "Binh" "binh@x" (.int 30)).1 "t3" "Cuong" "cuong@x" (.int 28)).1 2 =
      ([{ id := 1, name := "An", email := "an@x", age := .int 25, created_date := "t1",
          is_active := true },
        { id := 3, name := "Cuong", email := "cuong@x", age := .int 28, created_date := "t3",
          is_active := true }], true) ∧
    get_user_count
      (delete_user
        (add_user (add_user (add_user [] "t1" "An" "an@x" (.int 25)).1
          "t2" "Binh" "binh@x" (.int 30)).1 "t3" "Cuong" "cuong@x" (.int 28)).1 2).1 = 2 ∧
    (delete_user
        (add_user (add_user (add_user [] "t1" "An" "an@x" (.int 25)).1
          "t2" "Binh" "binh@x" (.int 30)).1 "t3" "Cuong" "cuong@x" (.int 28)).1 2).1.map
      User.id = [1, 3] :=
  claim_C6_delete_preserves_ids "t1" "t2" "t3" "An" "Binh" "Cuong" "an@x" "binh@x" "cuong@x"
    (.int 25) (.int 30) (.int 28)
    (by decide) (by decide) (by decide) (by decide) (by decide) (by decide)
    rfl (by decide) rfl (by decide) rfl (by decide)
    (by decide) (by decide) (by decide)

/-- Claim C7: export_users_to_csv on an empty store returns failure, the
target file is never opened or written, and the store is unchanged —
whether or not the target path would have been writable. -/
theorem claim_C7_export_empty_fails (writable : Bool) :
    export_users_to_csv writable [] =
      { success := false, fileWritten := false, users_after := [] } := rfl

/-- Claim C8: on every list whose elements are directly hashable and are
neither lists nor dicts, remove_duplicates_simple returns the same
result as remove_duplicates. -/
theorem claim_C8_simple_agrees (S : List PyVal)
    (h : ∀ a ∈ S, isHashable a = true ∧ isListVal a = false ∧ isDictVal a = false) :
    remove_duplicates_simple S = remove_duplicates S := by
  rw [remove_duplicates_simple, remove_duplicates]
  by_cases hS : S.isEmpty
  · rw [if_pos hS, if_pos hS]
  · rw [if_neg hS, if_neg hS]
    exact removeDupSimpleGo_eq_go []
      (fun a ha => item_key_eq_self (h a ha).2.1 (h a ha).2.2)

/-- Witness for claim C8 at a concrete flat list. -/
theorem claim_C8_witness :
    remove_duplicates_simple [.int 1, .str "a", .int 1] =
      remove_duplicates [.int 1, .str "a", .int 1] :=
  claim_C8_simple_agrees [.int 1, .str "a", .int 1] (by decide)

/-- Claim C9: search_users_by_name returns exactly the records whose
lowered name contains the lowered term as a substring, in store order
(it is the filter of the store by that predicate), and the empty term
returns the empty result rather than all records; strContains really is
substring occurrence. -/
theorem claim_C9_search_filter (users : List User) (term : String) :
    (search_users_by_name users term =
      if term = "" then []
      else users.filter (fun u => strContains (pyLower u.name) (pyLower term))) ∧
    (∀ hay needle : String, strContains hay needle = true ↔
      ∃ l1 l2 : List Char, hay.data = l1 ++ needle.data ++ l2) := by
  constructor
  · rw [search_users_by_name]
    by_cases h : term = ""
    · rw [if_pos h, if_pos h]
    · rw [if_neg h, if_neg h, searchLoop_eq_filter]
  · exact strContains_iff

/-- Claim C10: Python booleans pass the isinstance(age, int) check and
both False and True are not below zero, so add_user accepts a boolean
age for any valid fresh name/email and stores the boolean itself in the
age field of the new record. -/
theorem claim_C10_bool_age_accepted (users : List User) (now name email : String)
    (b : Bool) (h1 : name ≠ "") (h2 : email ≠ "") (h5 : ∀ u ∈ users, u.email ≠ email) :
    add_user users now name email (.bool b) =
      (users ++ [{ id := (users.length : Int) + 1, name := name, email := email,
                   age := .bool b, created_date := now, is_active := true }], true) := by
  refine add_user_success h1 h2 ?_ ?_ h5
  · rfl
  · cases b <;> decide

/-- Witness for claim C10: both boolean ages are accepted and stored on
a concrete empty store. -/
theorem claim_C10_witness :
    add_user [] "d" "An" "an@x.com" (.bool true) =
      ([{ id := 1, name := "An", email := "an@x.com", age := .bool true,
          created_date := "d", is_active := true }], true) ∧
    add_user [] "d" "An" "an@x.com" (.bool false) =
      ([{ id := 1, name := "An", email := "an@x.com", age := .bool false,
          created_date := "d", is_active := true }], true) := by
  constructor
  · have := claim_C10_bool_age_accepted [] "d" "An" "an@x.com" true
      (by decide) (by decide) (by simp)
    simpa using this
  · have := claim_C10_bool_age_accepted [] "d" "An" "an@x.com" false
      (by decide) (by decide) (by simp)
    simpa using this
